import Mathlib

set_option maxHeartbeats 1000000

namespace CCTVEncrypt

/-- Character codes of a string literal, used to model Python byte and str values. -/
def strL (s : String) : List Nat := s.data.map Char.toNat

/-- Lexicographic strict comparison on code-point lists, matching the ordering
Python's sorted uses on str values. -/
def lexLt : List Nat → List Nat → Bool
  | [], [] => false
  | [], _ :: _ => true
  | _ :: _, [] => false
  | a :: as, b :: bs => if a < b then true else if b < a then false else lexLt as bs

def startsWithL : List Nat → List Nat → Bool
  | [], _ => true
  | _ :: _, [] => false
  | a :: as, b :: bs => a == b && startsWithL as bs

def endsWithL (pat s : List Nat) : Bool := startsWithL pat.reverse s.reverse

/-- File contents. The constructor raw is plain bytes. The constructor tok is the
symbolic model of a Fernet token produced by the external cryptography.fernet
library: the token carries an authentication tag binding the signing key
(tagKey) and the authenticated data (tagPayload) to the carried payload;
decryption recomputes and checks the tag before releasing the payload, so
tampering with a token breaks the tag and payload agreement. -/
inductive BStr where
  | raw (bytes : List Nat)
  | tok (tagKey : List Nat) (tagPayload : BStr) (payload : BStr)
deriving DecidableEq

/-- Symbolic model of Fernet(key).encrypt from the external library. -/
def fernetEncrypt (key : List Nat) (data : BStr) : BStr := .tok key data data

/-- Symbolic model of Fernet(key).decrypt: returns none (the InvalidToken, i.e.
DecryptError, outcome) unless the tag authenticates the payload under key. -/
def fernetDecrypt (key : List Nat) : BStr → Option BStr
  | .raw _ => none
  | .tok tk tp p => if tk = key ∧ tp = p then some p else none

/-- A byte string is a well-formed token under key iff decryption accepts it;
anything else counts as corrupted or foreign ciphertext. -/
def tokenOk (key : List Nat) : BStr → Bool
  | .raw _ => false
  | .tok tk tp p => decide (tk = key) && decide (tp = p)

abbrev FileName := List Nat

abbrev Dir := List (FileName × BStr)

def getFile : Dir → FileName → Option BStr
  | [], _ => none
  | (m, c) :: rest, n => if m = n then some c else getFile rest n

def removeFile : Dir → FileName → Dir
  | [], _ => []
  | (m, c) :: rest, n => if m = n then removeFile rest n else (m, c) :: removeFile rest n

def setFile (d : Dir) (n : FileName) (c : BStr) : Dir := removeFile d n ++ [(n, c)]

def hasFile (d : Dir) (n : FileName) : Bool := (getFile d n).isSome

/-- URL-safe base64 alphabet, by index. -/
def b64char (i : Nat) : Nat :=
  if i < 26 then 65 + i
  else if i < 52 then 97 + (i - 26)
  else if i < 62 then 48 + (i - 52)
  else if i = 62 then 45 else 95

/-- Model of base64.urlsafe_b64encode over byte lists (61 is the pad char). -/
def b64encode : List Nat → List Nat
  | [] => []
  | [a] => [b64char (a / 4), b64char (a % 4 * 16), 61, 61]
  | [a, b] => [b64char (a / 4), b64char (a % 4 * 16 + b / 16), b64char (b % 16 * 4), 61]
  | a :: b :: c :: rest =>
      b64char (a / 4) :: b64char (a % 4 * 16 + b / 16) ::
        b64char (b % 16 * 4 + c / 64) :: b64char (c % 64) :: b64encode rest

/-- Modelled from the spec: the external PBKDF2-HMAC-SHA256 primitive of the
cryptography library (the library is not part of this repository). Only the
properties the repository relies on are modelled: it is a pure function of its
four arguments and returns exactly length bytes. -/
def pbkdf2Model (password salt : List Nat) (iterations length : Nat) : List Nat :=
  (List.range length).map (fun i =>
    ((password ++ salt).foldl (fun a b => (a * 131 + b + iterations) % 251) (i + 7)) % 256)

def ENCRYPTION_KEY : List Nat := strL "rootroot"

/-- Function generate_key of encrypt.py: PBKDF2-HMAC-SHA256 with the fixed salt
bytes of "salt_", 100000 iterations and 32-byte output, urlsafe-base64 encoded. -/
def generate_key (password : List Nat) : List Nat :=
  b64encode (pbkdf2Model password (strL "salt_") 100000 32)

/-- Function encrypt_file of encrypt.py over the directory model: read the file
at path, encrypt its contents under key, write the result to outPath. The none
result models the raised exception when the input file is missing. -/
def encrypt_file (d : Dir) (path : FileName) (key : List Nat) (outPath : FileName) :
    Option Dir :=
  match getFile d path with
  | some content => some (setFile d outPath (fernetEncrypt key content))
  | none => none

/-- Function decrypt_file of encrypt.py: read the file at path, decrypt it under
key, write the plaintext to outPath; none models the DecryptError or
missing-file exception, in which case nothing is written. -/
def decrypt_file (d : Dir) (path : FileName) (key : List Nat) (outPath : FileName) :
    Option Dir :=
  match getFile d path with
  | some content =>
      match fernetDecrypt key content with
      | some plain => some (setFile d outPath plain)
      | none => none
  | none => none

def decDigitsCore : Nat → Nat → List Nat
  | 0, _ => []
  | fuel + 1, n => if n < 10 then [n] else decDigitsCore fuel (n / 10) ++ [n % 10]

/-- Decimal digits of n, most significant first. -/
def decDigits (n : Nat) : List Nat := decDigitsCore (n + 1) n

/-- Python percent-04d formatting: decimal digits left-padded with zeros to a
width of at least 4. -/
def pad4 (n : Nat) : List Nat := List.replicate (4 - (decDigits n).length) 0 ++ decDigits n

/-- The file name frame_%04d followed by suffix, as character codes. -/
def nameWith (n : Nat) (suffix : List Nat) : FileName :=
  strL "frame_" ++ (pad4 n).map (fun d => d + 48) ++ suffix

def frameName (n : Nat) : FileName := nameWith n (strL ".jpg")

/-- A BGR image as rows of pixel values (one pixel abstracted to one Nat). -/
abbrev Image := List (List Nat)

/-- Model of the external JPEG codec (cv2.imencode): an injective byte
serialisation of the image. Lossiness of real JPEG is not relied upon by the
repository's logic and is idealised away. -/
def jpgEncode (img : Image) : List Nat :=
  img.length :: (img.map (fun r => r.length :: r)).flatten

def readRows : Nat → List Nat → Option (Image × List Nat)
  | 0, rest => some ([], rest)
  | _ + 1, [] => none
  | k + 1, len :: rest =>
      if len ≤ rest.length then
        match readRows k (rest.drop len) with
        | some (rs, r) => some (rest.take len :: rs, r)
        | none => none
      else none

/-- Model of cv2.imread and cv2.imdecode: parses bytes produced by jpgEncode,
returning none (as OpenCV does) on anything else. -/
def jpgDecode : List Nat → Option Image
  | [] => none
  | n :: rest =>
      match readRows n rest with
      | some (img, []) => some img
      | _ => none

/-- Reading a stored file as an image: only plain bytes can decode; a Fernet
token is not a valid image. -/
def imdecodeB : BStr → Option Image
  | .raw bs => jpgDecode bs
  | .tok _ _ _ => none

/-- An axis-aligned face rectangle as returned by the external detector. -/
structure Rect where
  x : Nat
  y : Nat
  w : Nat
  h : Nat
deriving DecidableEq

def getRegion (img : Image) (r : Rect) : Image :=
  ((img.drop r.y).take r.h).map (fun row => (row.drop r.x).take r.w)

def overwriteRow (row : List Nat) (x : Nat) (seg : List Nat) : List Nat :=
  row.take x ++ seg ++ row.drop (x + seg.length)

def setRegion (img : Image) (r : Rect) (block : Image) : Image :=
  img.take r.y ++
    List.zipWith (fun brow orow => overwriteRow orow r.x brow) block
      ((img.drop r.y).take block.length) ++
    img.drop (r.y + block.length)

/-- Model of cv2.resize with nearest-neighbour interpolation. -/
def resizeNN (img : Image) (newH newW : Nat) : Image :=
  (List.range newH).map (fun i => (List.range newW).map (fun j =>
    (img.getD (i * img.length / newH) []).getD (j * (img.headD []).length / newW) 0))

/-- One iteration of the face loop in apply_face_mosaic: extract the rectangle,
downscale by factor 0.1, upscale back with nearest neighbour, write the block
back over the rectangle. -/
def mosaicRect (img : Image) (r : Rect) : Image :=
  let roi := getRegion img r
  let small := resizeNN roi (max 1 (r.h / 10)) (max 1 (r.w / 10))
  let moz := resizeNN small r.h r.w
  setRegion img r moz

/-- Value-level apply_face_mosaic from encrypt.py: the resulting image, with
the face rectangles supplied by the external detector as a parameter. -/
def applyFaceMosaicI (img : Image) (faces : List Rect) : Image :=
  faces.foldl mosaicRect img

/-- Buffer-level apply_face_mosaic over an explicit heap of image buffers:
result_image = image.copy() allocates a fresh buffer at the end of the heap,
and each face rectangle is written in place into that buffer only. The result
is the new heap together with the index of the result buffer. -/
def applyFaceMosaicH (heap : List Image) (i : Nat) (faces : List Rect) :
    List Image × Nat :=
  let resId := heap.length
  let heap1 := heap ++ [heap.getD i []]
  let heap2 := faces.foldl (fun h r => h.set resId (mosaicRect (h.getD resId []) r)) heap1
  (heap2, resId)

/-- The three on-disk collections: raw frames in record, redacted frames in
record_mosaic, encrypted frames in record_encrypt. -/
structure Catalog where
  record : Dir
  recordMosaic : Dir
  recordEncrypt : Dir
deriving DecidableEq

/-- Per-connection state of websocket_endpoint: the variables streaming,
use_decryption and decryption_key. -/
structure Session where
  streaming : Bool
  useDecryption : Bool
  decryptionKey : Option (List Nat)
deriving DecidableEq

inductive Mode where
  | redacted
  | decrypting
deriving DecidableEq

/-- The session's effective mode, the code's condition
use_decryption and decryption_key (a missing key is falsy). -/
def sessionMode (s : Session) : Mode :=
  if s.useDecryption && s.decryptionKey.isSome then .decrypting else .redacted

inductive ServerMsg where
  | streamFrame (data : List Nat) (filename : FileName) (decrypted : Bool)
  | streamComplete
  | decryptionKeyValid
  | decryptionKeyInvalid
  | decryptionDisabled
  | decryptionError
deriving DecidableEq

inductive ClientMsg where
  | streamRequest
  | stopStream
  | setDecryptionKey (key : List Nat)
deriving DecidableEq

def pickLater (best x : FileName × BStr) : FileName × BStr :=
  if lexLt x.1 best.1 then best else x

/-- The expression sorted(files)[-1]: the entry with the lexicographically
greatest name (ties keep the later entry, as a stable sort does). -/
def maxByName : List (FileName × BStr) → Option (FileName × BStr)
  | [] => none
  | e :: es => some (es.foldl pickLater e)

def latestMosaicFile (cat : Catalog) : Option (FileName × BStr) :=
  maxByName (cat.recordMosaic.filter
    (fun e => startsWithL (strL "frame_") e.1 && endsWithL (strL ".jpg") e.1))

def latestEncFile (cat : Catalog) : Option (FileName × BStr) :=
  maxByName (cat.recordEncrypt.filter
    (fun e => startsWithL (strL "frame_") e.1 && endsWithL (strL ".jpg.enc") e.1))

/-- One timer-driven push of websocket_endpoint (main.py lines 132-189); the
initial push performed by the stream_request handler is a verbatim copy of the
same code (lines 203-255). Returns the updated session and the messages sent. -/
def pushFrame (cat : Catalog) (s : Session) : Session × List ServerMsg :=
  match s.useDecryption, s.decryptionKey with
  | true, some key =>
      match latestEncFile cat with
      | none => (s, [])
      | some (n, c) =>
          match fernetDecrypt key c with
          | some plain =>
              match imdecodeB plain with
              | some img =>
                  (s, [.streamFrame (b64encode (jpgEncode img)) (n.take (n.length - 4)) true])
              | none => (s, [])
          | none => ({ s with useDecryption := false }, [.decryptionError])
  | _, _ =>
      match latestMosaicFile cat with
      | none => (s, [])
      | some (n, c) =>
          match imdecodeB c with
          | some img => (s, [.streamFrame (b64encode (jpgEncode img)) n false])
          | none => (s, [])

/-- Dispatch of one received client message by websocket_endpoint
(main.py lines 199-304). -/
def handleMessage (cat : Catalog) (s : Session) : ClientMsg → Session × List ServerMsg
  | .streamRequest => pushFrame cat { s with streaming := true }
  | .stopStream => ({ s with streaming := false }, [.streamComplete])
  | .setDecryptionKey p =>
      if p = [] then
        ({ s with useDecryption := false, decryptionKey := none }, [.decryptionDisabled])
      else
        let key := generate_key p
        match cat.recordEncrypt.filter (fun e => endsWithL (strL ".enc") e.1) with
        | [] => (s, [])
        | e :: _ =>
            match fernetDecrypt key e.2 with
            | some _ =>
                ({ s with useDecryption := true, decryptionKey := some key },
                  [.decryptionKeyValid])
            | none => (s, [.decryptionKeyInvalid])

/-- The sampler's process-wide key: generate_key(ENCRYPTION_KEY). -/
def samplerKey : List Nat := generate_key ENCRYPTION_KEY

/-- Processing of one sampled frame by process_rtsp_stream (main.py lines
70-96). The Boolean flags model the external failure points: mosaicExn is an
exception raised while mosaicking or writing the mosaic, mosaicWriteOk is
whether cv2.imwrite actually wrote the mosaic file (it can fail by returning
False without raising), and encryptExn is an exception raised while encrypting
or writing the ciphertext. An exception jumps to the handler, skipping the
deletion of the raw file; the deletion itself is guarded by the existence of
both derived files. -/
def processFrame (cat : Catalog) (frame : Image) (count : Nat) (faces : List Rect)
    (mosaicExn mosaicWriteOk encryptExn : Bool) : Catalog :=
  let name := frameName count
  let cat1 := { cat with record := setFile cat.record name (.raw (jpgEncode frame)) }
  if mosaicExn then cat1
  else
    let moz := setFile cat1.recordMosaic name
      (.raw (jpgEncode (applyFaceMosaicI frame faces)))
    let cat2 := if mosaicWriteOk then { cat1 with recordMosaic := moz } else cat1
    if encryptExn then cat2
    else
      match getFile cat2.record name with
      | none => cat2
      | some content =>
          let enc := setFile cat2.recordEncrypt (name ++ strL ".enc")
            (fernetEncrypt samplerKey content)
          let cat3 := { cat2 with recordEncrypt := enc }
          if hasFile cat3.recordMosaic name &&
              hasFile cat3.recordEncrypt (name ++ strL ".enc") then
            { cat3 with record := removeFile cat3.record name }
          else cat3

/-- Processing of one pre-existing file by process_files (encrypt.py lines
84-108), with the external face detector passed as a function of the file
name. Skips files whose two derived artifacts both exist, and files that do
not decode as an image. The raw file is never deleted here. -/
def processOneFile (det : FileName → List Rect) (cat : Catalog) (e : FileName × BStr) :
    Catalog :=
  if hasFile cat.recordMosaic e.1 && hasFile cat.recordEncrypt (e.1 ++ strL ".enc") then cat
  else
    match imdecodeB e.2 with
    | none => cat
    | some img =>
        let moz := setFile cat.recordMosaic e.1
          (.raw (jpgEncode (applyFaceMosaicI img (det e.1))))
        let cat2 := { cat with recordMosaic := moz }
        match getFile cat2.record e.1 with
        | none => cat2
        | some content =>
            let enc := setFile cat2.recordEncrypt (e.1 ++ strL ".enc")
              (fernetEncrypt samplerKey content)
            { cat2 with recordEncrypt := enc }

/-- Function process_files of encrypt.py: run over the snapshot of all .jpg
files in the raw directory. -/
def process_files (det : FileName → List Rect) (cat : Catalog) : Catalog :=
  (cat.record.filter (fun e => endsWithL (strL ".jpg") e.1)).foldl (processOneFile det) cat

/-- Function del_files of main.py: empties all three directories. -/
def del_files (_cat : Catalog) : Catalog := ⟨[], [], []⟩

/-- Catalog effect of startup_event in main.py, before the sampler task is
spawned: del_files() followed by encrypt.process_files(). -/
def startup_event (det : FileName → List Rect) (cat : Catalog) : Catalog :=
  process_files det (del_files cat)

theorem getFile_removeFile_self (d : Dir) (n : FileName) :
    getFile (removeFile d n) n = none := by
  induction d with
  | nil => rfl
  | cons e rest ih =>
      obtain ⟨m, c⟩ := e
      by_cases h : m = n
      · simp [removeFile, h, ih]
      · simp [removeFile, getFile, h, ih]

theorem getFile_setFile_self (d : Dir) (n : FileName) (c : BStr) :
    getFile (setFile d n c) n = some c := by
  unfold setFile
  induction d with
  | nil => simp [getFile]
  | cons e rest ih =>
      obtain ⟨m, x⟩ := e
      by_cases h : m = n
      · simp [removeFile, h, ih]
      · simp [removeFile, getFile, h, ih]

theorem hasFile_setFile_self (d : Dir) (n : FileName) (c : BStr) :
    hasFile (setFile d n c) n = true := by
  simp [hasFile, getFile_setFile_self]

theorem hasFile_removeFile_self (d : Dir) (n : FileName) :
    hasFile (removeFile d n) n = false := by
  simp [hasFile, getFile_removeFile_self]

theorem fernetDecrypt_fernetEncrypt (k : List Nat) (c : BStr) :
    fernetDecrypt k (fernetEncrypt k c) = some c := by
  simp [fernetEncrypt, fernetDecrypt]

theorem fernetDecrypt_wrong_key (k1 k2 : List Nat) (c : BStr) (h : k1 ≠ k2) :
    fernetDecrypt k2 (fernetEncrypt k1 c) = none := by
  simp [fernetEncrypt, fernetDecrypt]
  intro he
  exact absurd he h

theorem fernetDecrypt_of_tokenOk_false (k : List Nat) (t : BStr)
    (h : tokenOk k t = false) : fernetDecrypt k t = none := by
  cases t with
  | raw bs => rfl
  | tok tk tp p =>
      simp [tokenOk, decide_eq_true_eq] at h
      simp [fernetDecrypt]
      intro h1 h2
      exact absurd h2 (h h1)

theorem b64encode_length : (l : List Nat) → (b64encode l).length = 4 * ((l.length + 2) / 3)
  | [] => by simp [b64encode]
  | [_] => by simp [b64encode]
  | [_, _] => by simp [b64encode]
  | _ :: _ :: _ :: rest => by
      have ih := b64encode_length rest
      simp [b64encode, ih]
      omega

theorem generate_key_length (p : List Nat) : (generate_key p).length = 44 := by
  unfold generate_key
  rw [b64encode_length]
  simp [pbkdf2Model]

theorem lexLt_irrefl : (l : List Nat) → lexLt l l = false
  | [] => rfl
  | _ :: as => by simp [lexLt, lexLt_irrefl as]

theorem lexLt_asymm : (x y : List Nat) → lexLt x y = true → lexLt y x = false
  | [], [] => by simp [lexLt]
  | [], _ :: _ => by simp [lexLt]
  | _ :: _, [] => by simp [lexLt]
  | a :: as, b :: bs => by
      have ih := lexLt_asymm as bs
      simp only [lexLt]
      by_cases h1 : a < b
      · have h2 : ¬ b < a := by omega
        simp [h1, h2]
      · by_cases h2 : b < a
        · simp [h1, h2]
        · simp only [if_neg h1, if_neg h2]
          exact ih

theorem lexLt_append_same : (p x y : List Nat) → lexLt (p ++ x) (p ++ y) = lexLt x y
  | [], _, _ => rfl
  | _ :: p, x, y => by simp [lexLt, lexLt_append_same p x y]

theorem decDigitsCore_congr (f g n : Nat) (hf : n < f) (hg : n < g) :
    decDigitsCore f n = decDigitsCore g n := by
  induction f generalizing g n with
  | zero => omega
  | succ f ih =>
      cases g with
      | zero => omega
      | succ g =>
          by_cases h : n < 10
          · simp [decDigitsCore, h]
          · have h1 : n / 10 < f := by omega
            have h2 : n / 10 < g := by omega
            simp only [decDigitsCore, if_neg h]
            rw [ih g (n / 10) h1 h2]

theorem decDigits_lt10 (n : Nat) (h : n < 10) : decDigits n = [n] := by
  simp [decDigits, decDigitsCore, h]

theorem decDigits_ge10 (n : Nat) (h : 10 ≤ n) :
    decDigits n = decDigits (n / 10) ++ [n % 10] := by
  unfold decDigits
  conv_lhs => rw [decDigitsCore]
  rw [if_neg (by omega)]
  rw [decDigitsCore_congr n (n / 10 + 1) (n / 10) (by omega) (by omega)]

theorem pad4_eq (n : Nat) (h : n < 10000) :
    pad4 n = [n / 1000, n / 100 % 10, n / 10 % 10, n % 10] := by
  rcases Nat.lt_or_ge n 10 with h1 | h1
  · rw [pad4, decDigits_lt10 n h1]
    show ([0, 0, 0, n] : List Nat) = _
    simp only [List.cons.injEq, and_true]
    omega
  · rcases Nat.lt_or_ge n 100 with h2 | h2
    · have d : decDigits n = [n / 10, n % 10] := by
        rw [decDigits_ge10 n h1, decDigits_lt10 (n / 10) (by omega)]
        rfl
      rw [pad4, d]
      show ([0, 0, n / 10, n % 10] : List Nat) = _
      simp only [List.cons.injEq, and_true]
      omega
    · rcases Nat.lt_or_ge n 1000 with h3 | h3
      · have d : decDigits n = [n / 100, n / 10 % 10, n % 10] := by
          rw [decDigits_ge10 n h1, decDigits_ge10 (n / 10) (by omega),
            decDigits_lt10 (n / 10 / 10) (by omega)]
          have e : n / 10 / 10 = n / 100 := by omega
          rw [e]
          rfl
        rw [pad4, d]
        show ([0, n / 100, n / 10 % 10, n % 10] : List Nat) = _
        simp only [List.cons.injEq, and_true]
        omega
      · have d : decDigits n = [n / 1000, n / 100 % 10, n / 10 % 10, n % 10] := by
          rw [decDigits_ge10 n h1, decDigits_ge10 (n / 10) (by omega),
            decDigits_ge10 (n / 10 / 10) (by omega),
            decDigits_lt10 (n / 10 / 10 / 10) (by omega)]
          have e1 : n / 10 / 10 / 10 = n / 1000 := by omega
          have e2 : n / 10 / 10 % 10 = n / 100 % 10 := by omega
          rw [e1, e2]
          rfl
        rw [pad4, d]
        rfl

theorem lexLt_nameWith (a b : Nat) (s : List Nat) (hab : a < b) (hb : b < 10000) :
    lexLt (nameWith a s) (nameWith b s) = true := by
  have ha : a < 10000 := lt_trans hab hb
  unfold nameWith
  rw [List.append_assoc (strL "frame_") (List.map (fun d => d + 48) (pad4 a)) s,
    List.append_assoc (strL "frame_") (List.map (fun d => d + 48) (pad4 b)) s,
    lexLt_append_same (strL "frame_") (List.map (fun d => d + 48) (pad4 a) ++ s)
      (List.map (fun d => d + 48) (pad4 b) ++ s)]
  rw [pad4_eq a ha, pad4_eq b hb]
  simp only [List.map_cons, List.map_nil, List.cons_append, List.nil_append]
  simp only [lexLt]
  repeat' split
  all_goals first | rfl | (exfalso; omega)

theorem lexLt_nameWith_iff (a b : Nat) (s : List Nat) (ha : a < 10000) (hb : b < 10000) :
    lexLt (nameWith a s) (nameWith b s) = true ↔ a < b := by
  constructor
  · intro h
    by_contra hc
    rcases Nat.lt_or_ge b a with h2 | h2
    · have hba := lexLt_nameWith b a s h2 ha
      have hF := lexLt_asymm _ _ hba
      rw [h] at hF
      exact Bool.noConfusion hF
    · have : a = b := by omega
      subst this
      rw [lexLt_irrefl] at h
      exact Bool.noConfusion h
  · intro h
    exact lexLt_nameWith a b s h hb

theorem pickLater_cases (best x : FileName × BStr) :
    pickLater best x = best ∨ pickLater best x = x := by
  unfold pickLater
  split
  · exact Or.inl rfl
  · exact Or.inr rfl

theorem foldl_pickLater_mem :
    (es : List (FileName × BStr)) → ∀ acc,
      es.foldl pickLater acc = acc ∨ es.foldl pickLater acc ∈ es
  | [] => fun _ => Or.inl rfl
  | x :: rest => fun acc => by
      rcases foldl_pickLater_mem rest (pickLater acc x) with h | h
      · rcases pickLater_cases acc x with hp | hp
        · left
          rw [List.foldl_cons, h, hp]
        · right
          rw [List.foldl_cons, h, hp]
          exact List.mem_cons_self x rest
      · right
        rw [List.foldl_cons]
        exact List.mem_cons_of_mem x h

theorem maxByName_mem (l : List (FileName × BStr)) (e : FileName × BStr)
    (h : maxByName l = some e) : e ∈ l := by
  cases l with
  | nil => exact absurd h (by simp [maxByName])
  | cons x rest =>
      simp only [maxByName, Option.some.injEq] at h
      rcases foldl_pickLater_mem rest x with h2 | h2
      · rw [← h, h2]
        exact List.mem_cons_self x rest
      · rw [← h]
        exact List.mem_cons_of_mem x h2

theorem startsWithL_append_self : (p t : List Nat) → startsWithL p (p ++ t) = true
  | [], _ => rfl
  | a :: p, t => by simp [startsWithL, startsWithL_append_self p t]

theorem endsWithL_append_self (s l : List Nat) : endsWithL s (l ++ s) = true := by
  unfold endsWithL
  rw [List.reverse_append]
  exact startsWithL_append_self s.reverse l.reverse

theorem startsWith_nameWith (i : Nat) (s : List Nat) :
    startsWithL (strL "frame_") (nameWith i s) = true := by
  unfold nameWith
  rw [List.append_assoc]
  exact startsWithL_append_self _ _

theorem endsWith_nameWith (i : Nat) (s : List Nat) : endsWithL s (nameWith i s) = true := by
  unfold nameWith
  exact endsWithL_append_self s _

theorem foldl_pickLater_nameWith (suffix : List Nat) (g : Nat → FileName × BStr)
    (hg : ∀ i, (g i).1 = nameWith i suffix) :
    ∀ (ids : List Nat) (m : Nat) (acc : FileName × BStr), (∀ i ∈ ids, i < 10000) →
      m < 10000 → acc.1 = nameWith m suffix →
      ((ids.map g).foldl pickLater acc).1 = nameWith (ids.foldl max m) suffix := by
  intro ids
  induction ids with
  | nil =>
      intro m acc _ _ hacc
      simpa using hacc
  | cons i rest ih =>
      intro m acc hlt hm hacc
      have hi : i < 10000 := hlt i (List.mem_cons_self i rest)
      have hrest : ∀ j ∈ rest, j < 10000 := fun j hj => hlt j (List.mem_cons_of_mem i hj)
      simp only [List.map_cons, List.foldl_cons]
      by_cases hcmp : i < m
      · have hlex : lexLt (g i).1 acc.1 = true := by
          rw [hg i, hacc]
          exact lexLt_nameWith i m suffix hcmp hm
        have hpick : pickLater acc (g i) = acc := by
          simp [pickLater, hlex]
        rw [hpick]
        have hmax : max m i = m := by omega
        rw [hmax]
        exact ih m acc hrest hm hacc
      · have hlex : lexLt (g i).1 acc.1 = false := by
          rw [hg i, hacc]
          by_cases he : i = m
          · subst he
            exact lexLt_irrefl _
          · exact lexLt_asymm _ _ (lexLt_nameWith m i suffix (by omega) hi)
        have hpick : pickLater acc (g i) = g i := by
          simp [pickLater, hlex]
        rw [hpick]
        have hmax : max m i = i := by omega
        rw [hmax]
        exact ih i (g i) hrest hi (hg i)

theorem maxByName_map_nameWith (suffix : List Nat) (g : Nat → FileName × BStr)
    (hg : ∀ i, (g i).1 = nameWith i suffix) (i0 : Nat) (rest : List Nat)
    (hlt : ∀ i ∈ i0 :: rest, i < 10000) :
    (maxByName ((i0 :: rest).map g)).map Prod.fst =
      some (nameWith ((i0 :: rest).foldl max 0) suffix) := by
  have hi0 : i0 < 10000 := hlt i0 (List.mem_cons_self i0 rest)
  have hrest : ∀ j ∈ rest, j < 10000 := fun j hj => hlt j (List.mem_cons_of_mem i0 hj)
  simp only [List.map_cons, maxByName, List.foldl_cons, Option.map_some']
  have := foldl_pickLater_nameWith suffix g hg rest i0 (g i0) hrest hi0 (hg i0)
  rw [this]
  have : max 0 i0 = i0 := by omega
  rw [this]

theorem getD_set_ne {α : Type} (l : List α) (i j : Nat) (a d : α) (h : i ≠ j) :
    (l.set j a).getD i d = l.getD i d := by
  induction l generalizing i j with
  | nil => rfl
  | cons x rest ih =>
      cases j with
      | zero =>
          cases i with
          | zero => omega
          | succ i => rfl
      | succ j =>
          cases i with
          | zero => rfl
          | succ i =>
              simp only [List.set, List.getD_cons_succ]
              exact ih i j (by omega)

theorem foldl_mosaic_getD_ne (resId i : Nat) (hne : i ≠ resId) :
    (faces : List Rect) → ∀ h : List Image,
      (faces.foldl (fun hp r => hp.set resId (mosaicRect (hp.getD resId []) r)) h).getD i []
        = h.getD i []
  | [], _ => rfl
  | r :: rest, h => by
      rw [List.foldl_cons, foldl_mosaic_getD_ne resId i hne rest]
      exact getD_set_ne _ _ _ _ _ hne

/-- C1: decrypting a Fernet token produced under one key with a different key
fails closed with a DecryptError (modelled as none) instead of returning any
plaintext, any byte string that is not a well-formed token under the key (a
corrupted ciphertext) also fails closed, and decrypt_file on a file holding a
token made under a different key fails without writing any output. -/
theorem c1_wrong_key_or_corrupt_fails (k1 k2 : List Nat) (c t : BStr) (d : Dir)
    (p out : FileName) (hk : k1 ≠ k2) (ht : tokenOk k1 t = false)
    (hf : getFile d p = some (fernetEncrypt k1 c)) :
    fernetDecrypt k2 (fernetEncrypt k1 c) = none ∧
    fernetDecrypt k1 t = none ∧
    decrypt_file d p k2 out = none := by
  refine ⟨fernetDecrypt_wrong_key k1 k2 c hk, fernetDecrypt_of_tokenOk_false k1 t ht, ?_⟩
  simp [decrypt_file, hf, fernetDecrypt_wrong_key k1 k2 c hk]

/-- Witness for C1 at concrete keys, payload and store. -/
theorem c1_witness :
    ([1] : List Nat) ≠ [2] ∧ tokenOk [1] (.raw [7]) = false ∧
    getFile [([5], fernetEncrypt [1] (.raw [9]))] [5] = some (fernetEncrypt [1] (.raw [9])) ∧
    (fernetDecrypt [2] (fernetEncrypt [1] (.raw [9])) = none ∧
      fernetDecrypt [1] (.raw [7]) = none ∧
      decrypt_file [([5], fernetEncrypt [1] (.raw [9]))] [5] [2] [6] = none) :=
  ⟨by decide, by decide, by decide,
    c1_wrong_key_or_corrupt_fails [1] [2] (.raw [9]) (.raw [7])
      [([5], fernetEncrypt [1] (.raw [9]))] [5] [6] (by decide) (by decide) (by decide)⟩

/-- C2: encrypting and then decrypting under the same derived key is the
identity on the payload, both at the service level and through encrypt_file
followed by decrypt_file: the decrypted output file holds exactly the
original contents. -/
theorem c2_roundtrip (d : Dir) (p pe po : FileName) (k : List Nat) (c : BStr)
    (hf : getFile d p = some c) :
    fernetDecrypt k (fernetEncrypt k c) = some c ∧
    ∃ d1 d2, encrypt_file d p k pe = some d1 ∧ decrypt_file d1 pe k po = some d2 ∧
      getFile d2 po = some c := by
  refine ⟨fernetDecrypt_fernetEncrypt k c, setFile d pe (fernetEncrypt k c),
    setFile (setFile d pe (fernetEncrypt k c)) po c, ?_, ?_, ?_⟩
  · simp [encrypt_file, hf]
  · simp [decrypt_file, getFile_setFile_self, fernetDecrypt_fernetEncrypt]
  · exact getFile_setFile_self _ _ _

/-- Witness for C2 at a concrete store, key and payload. -/
theorem c2_witness :
    getFile [([5], BStr.raw [9])] [5] = some (.raw [9]) ∧
    (fernetDecrypt [1] (fernetEncrypt [1] (.raw [9])) = some (.raw [9]) ∧
      ∃ d1 d2, encrypt_file [([5], BStr.raw [9])] [5] [1] [6] = some d1 ∧
        decrypt_file d1 [6] [1] [7] = some d2 ∧ getFile d2 [7] = some (.raw [9])) :=
  ⟨by decide, c2_roundtrip [([5], BStr.raw [9])] [5] [6] [7] [1] (.raw [9]) (by decide)⟩

/-- C9: key derivation is a deterministic total function of the passphrase
alone; the salt (bytes of "salt_") and iteration count (100000) are fixed
constants baked into generate_key, the output always has the same fixed
length (44 characters, the urlsafe base64 encoding of 32 bytes), and the
sampler's own key is the very same function applied to the fixed operator
passphrase, so equal passphrases always yield equal keys across call sites. -/
theorem c9_deterministic_key (p q : List Nat) (h : p = q) :
    generate_key p = generate_key q ∧
    (generate_key p).length = 44 ∧
    generate_key p = b64encode (pbkdf2Model p (strL "salt_") 100000 32) ∧
    samplerKey = generate_key ENCRYPTION_KEY := by
  subst h
  exact ⟨rfl, generate_key_length p, rfl, rfl⟩

/-- Witness for C9 at a concrete passphrase. -/
theorem c9_witness :
    strL "abc" = strL "abc" ∧
    (generate_key (strL "abc") = generate_key (strL "abc") ∧
      (generate_key (strL "abc")).length = 44 ∧
      generate_key (strL "abc") = b64encode (pbkdf2Model (strL "abc") (strL "salt_") 100000 32) ∧
      samplerKey = generate_key ENCRYPTION_KEY) :=
  ⟨rfl, c9_deterministic_key (strL "abc") (strL "abc") rfl⟩

/-- C7 counterexample: a raw frame present on disk at startup is not run
through the pipeline; startup_event (del_files then process_files) deletes it
outright, and afterwards neither its redacted nor its encrypted artifact
exists, contradicting the claim that no raw data present at startup is lost
unprocessed. -/
theorem c7_counterexample :
    (let cat : Catalog := ⟨[(frameName 0, .raw [1, 2, 3])], [], []⟩
     let det : FileName → List Rect := fun _ => []
     hasFile cat.record (frameName 0) = true ∧
       hasFile (startup_event det cat).record (frameName 0) = false ∧
       hasFile (startup_event det cat).recordMosaic (frameName 0) = false ∧
       hasFile (startup_event det cat).recordEncrypt (frameName 0 ++ strL ".enc") = false) := by
  decide

/-- C7 amended: at startup, del_files first deletes every raw, redacted and
encrypted file, and the subsequent process_files pass therefore finds an
empty raw directory and commits nothing, for every starting catalog state and
every detector: raw frames present at startup are deleted unprocessed, and
the skip-if-already-processed check of process_files never fires. -/
theorem c7_amended (det : FileName → List Rect) (cat : Catalog) :
    startup_event det cat = ⟨[], [], []⟩ := rfl

/-- C5: apply_face_mosaic never mutates the caller's buffer (the buffer at
the input index is unchanged, whatever rectangles the detector returned), and
with zero detected faces the returned buffer equals the input image. -/
theorem c5_no_mutation (heap : List Image) (i : Nat) (faces : List Rect)
    (h : i < heap.length) :
    (applyFaceMosaicH heap i faces).1.getD i [] = heap.getD i [] ∧
    (applyFaceMosaicH heap i []).1.getD (applyFaceMosaicH heap i []).2 [] = heap.getD i [] := by
  constructor
  · simp only [applyFaceMosaicH]
    rw [foldl_mosaic_getD_ne heap.length i (by omega) faces]
    exact List.getD_append _ _ _ _ h
  · simp only [applyFaceMosaicH, List.foldl_nil]
    rw [List.getD_append_right _ _ _ _ (le_refl _)]
    simp

/-- Witness for C5 at a concrete heap with one face rectangle. -/
theorem c5_witness :
    0 < ([[[5, 6], [7, 8]]] : List Image).length ∧
    ((applyFaceMosaicH [[[5, 6], [7, 8]]] 0 [⟨0, 0, 2, 2⟩]).1.getD 0 [] =
        ([[[5, 6], [7, 8]]] : List Image).getD 0 [] ∧
      (applyFaceMosaicH [[[5, 6], [7, 8]]] 0 []).1.getD
          (applyFaceMosaicH [[[5, 6], [7, 8]]] 0 []).2 [] =
        ([[[5, 6], [7, 8]]] : List Image).getD 0 []) :=
  ⟨by decide, c5_no_mutation [[[5, 6], [7, 8]]] 0 [⟨0, 0, 2, 2⟩] (by decide)⟩

/-- C3 counterexample: a session already in DECRYPTING mode (holding the key
derived from the operator passphrase) receives set_decryption_key with a
non-empty wrong passphrase; the probe against the stored token fails and the
client is notified decryption_key_invalid, yet afterwards the session is
still in DECRYPTING mode and still holds its old key, contradicting the claim
that after a failed probe the mode is REDACTED and the key is discarded. -/
theorem c3_counterexample :
    (let kg := generate_key (strL "rootroot")
     let cat : Catalog := ⟨[], [], [(frameName 0 ++ strL ".enc", fernetEncrypt kg (.raw [9]))]⟩
     let s : Session := ⟨true, true, some kg⟩
     sessionMode s = .decrypting ∧ strL "bad" ≠ [] ∧
       (handleMessage cat s (.setDecryptionKey (strL "bad"))).2 = [.decryptionKeyInvalid] ∧
       sessionMode (handleMessage cat s (.setDecryptionKey (strL "bad"))).1 = .decrypting ∧
       (handleMessage cat s (.setDecryptionKey (strL "bad"))).1.decryptionKey = some kg) := by
  decide

/-- C3 amended: when a set_decryption_key message with a non-empty passphrase
fails its validation probe, the client is notified decryption_key_invalid and
the session's mode and stored key are left exactly as they were before the
message (so a session whose mode was REDACTED with no key stays that way, but
a session already in DECRYPTING mode keeps its old key and stays in
DECRYPTING; the failed validation does not reset the state). -/
theorem c3_amended (cat : Catalog) (s : Session) (p : List Nat) (e : FileName × BStr)
    (rest : List (FileName × BStr)) (hp : p ≠ [])
    (hfilter : cat.recordEncrypt.filter (fun x => endsWithL (strL ".enc") x.1) = e :: rest)
    (hfail : fernetDecrypt (generate_key p) e.2 = none) :
    handleMessage cat s (.setDecryptionKey p) = (s, [.decryptionKeyInvalid]) := by
  simp only [handleMessage]
  rw [if_neg hp, hfilter]
  simp [hfail]

/-- Witness for C3 amended at a concrete catalog, session and passphrase. -/
theorem c3_amended_witness :
    (strL "bad" : List Nat) ≠ [] ∧
    (Catalog.recordEncrypt ⟨[], [],
        [(frameName 0 ++ strL ".enc",
          fernetEncrypt (generate_key (strL "rootroot")) (.raw [9]))]⟩).filter
      (fun x => endsWithL (strL ".enc") x.1) =
        [(frameName 0 ++ strL ".enc",
          fernetEncrypt (generate_key (strL "rootroot")) (.raw [9]))] ∧
    fernetDecrypt (generate_key (strL "bad"))
      (fernetEncrypt (generate_key (strL "rootroot")) (.raw [9])) = none ∧
    handleMessage ⟨[], [],
        [(frameName 0 ++ strL ".enc",
          fernetEncrypt (generate_key (strL "rootroot")) (.raw [9]))]⟩
      ⟨false, false, none⟩ (.setDecryptionKey (strL "bad")) =
        (⟨false, false, none⟩, [.decryptionKeyInvalid]) :=
  ⟨by decide, by decide, by decide,
    c3_amended ⟨[], [],
        [(frameName 0 ++ strL ".enc",
          fernetEncrypt (generate_key (strL "rootroot")) (.raw [9]))]⟩
      ⟨false, false, none⟩ (strL "bad")
      (frameName 0 ++ strL ".enc", fernetEncrypt (generate_key (strL "rootroot")) (.raw [9]))
      [] (by decide) (by decide) (by decide)⟩

/-- C10: a set_decryption_key message with a non-empty passphrase arriving
while no encrypted artifact exists sends no response at all (neither valid
nor invalid) and leaves the session's mode and stored key unchanged. -/
theorem c10_no_probe_no_reply (cat : Catalog) (s : Session) (p : List Nat) (hp : p ≠ [])
    (hempty : cat.recordEncrypt.filter (fun x => endsWithL (strL ".enc") x.1) = []) :
    handleMessage cat s (.setDecryptionKey p) = (s, []) := by
  simp only [handleMessage]
  rw [if_neg hp, hempty]

/-- Witness for C10 at a concrete empty catalog. -/
theorem c10_witness :
    (strL "pw" : List Nat) ≠ [] ∧
    (Catalog.recordEncrypt ⟨[], [(frameName 0, .raw [1])], []⟩).filter
      (fun x => endsWithL (strL ".enc") x.1) = [] ∧
    handleMessage ⟨[], [(frameName 0, .raw [1])], []⟩ ⟨true, false, none⟩
      (.setDecryptionKey (strL "pw")) = (⟨true, false, none⟩, []) :=
  ⟨by decide, by decide,
    c10_no_probe_no_reply ⟨[], [(frameName 0, .raw [1])], []⟩ ⟨true, false, none⟩
      (strL "pw") (by decide) (by decide)⟩

theorem pushFrame_redacted (cat : Catalog) (s : Session) (h : sessionMode s = .redacted) :
    (pushFrame cat s).1 = s ∧
    ∀ m ∈ (pushFrame cat s).2, ∃ n c img, (n, c) ∈ cat.recordMosaic ∧
      imdecodeB c = some img ∧ m = .streamFrame (b64encode (jpgEncode img)) n false := by
  obtain ⟨st, ud, dk⟩ := s
  have hbranch : pushFrame cat ⟨st, ud, dk⟩ =
      (match latestMosaicFile cat with
        | none => (⟨st, ud, dk⟩, ([] : List ServerMsg))
        | some (n, c) =>
            match imdecodeB c with
            | some img => (⟨st, ud, dk⟩, [.streamFrame (b64encode (jpgEncode img)) n false])
            | none => (⟨st, ud, dk⟩, [])) := by
    cases ud with
    | false => rfl
    | true =>
        cases dk with
        | none => rfl
        | some k => simp [sessionMode] at h
  rw [hbranch]
  rcases hlm : latestMosaicFile cat with _ | ⟨n, c⟩
  · exact ⟨rfl, by simp⟩
  · have hmem : (n, c) ∈ cat.recordMosaic :=
      List.mem_of_mem_filter (maxByName_mem _ _ hlm)
    rcases him : imdecodeB c with _ | img
    · simp only [him]
      exact ⟨by simp, by simp⟩
    · simp only [him, List.mem_singleton]
      refine ⟨by simp, ?_⟩
      intro m hm
      exact ⟨n, c, img, hmem, him, hm⟩

/-- C4: while a session is in REDACTED mode, every stream_frame it pushes
(whether from the periodic timer push or from the initial push of a
stream_request) carries decrypted = false and image data re-encoded from an
artifact of the redacted (mosaic) collection; no other data reaches a
REDACTED-mode session's stream, and the push leaves the session state
unchanged apart from the streaming flag set by stream_request. -/
theorem c4_redacted_mode_pushes (cat : Catalog) (s : Session)
    (h : sessionMode s = .redacted) :
    (pushFrame cat s).1 = s ∧
    (∀ m ∈ (pushFrame cat s).2, ∃ n c img, (n, c) ∈ cat.recordMosaic ∧
      imdecodeB c = some img ∧ m = .streamFrame (b64encode (jpgEncode img)) n false) ∧
    (handleMessage cat s .streamRequest).1 = { s with streaming := true } ∧
    (∀ m ∈ (handleMessage cat s .streamRequest).2, ∃ n c img, (n, c) ∈ cat.recordMosaic ∧
      imdecodeB c = some img ∧ m = .streamFrame (b64encode (jpgEncode img)) n false) := by
  have h2 : sessionMode { s with streaming := true } = .redacted := h
  obtain ⟨hp1, hp2⟩ := pushFrame_redacted cat s h
  obtain ⟨hq1, hq2⟩ := pushFrame_redacted cat { s with streaming := true } h2
  exact ⟨hp1, hp2, hq1, hq2⟩

/-- Witness for C4 at a concrete catalog with one mosaic artifact. -/
theorem c4_witness :
    sessionMode ⟨false, false, none⟩ = .redacted ∧
    (∀ m ∈ (pushFrame ⟨[], [(frameName 0, .raw (jpgEncode [[5]]))], []⟩
        ⟨false, false, none⟩).2,
      ∃ n c img, (n, c) ∈ [(frameName 0, BStr.raw (jpgEncode [[5]]))] ∧
        imdecodeB c = some img ∧
        m = .streamFrame (b64encode (jpgEncode img)) n false) :=
  ⟨by decide,
    (c4_redacted_mode_pushes ⟨[], [(frameName 0, .raw (jpgEncode [[5]]))], []⟩
      ⟨false, false, none⟩ (by decide)).2.1⟩

/-- C6 counterexample: a reachable two-tick trace on which a failed write does
not retain the raw artifact. frame_count += 1 sits inside the try block
(main.py line 94), so after the first tick raises during encryption the same
frame name is reused while that tick's mosaic is still on disk. On the second
tick the mosaic write fails silently (cv2.imwrite returns False without
raising) but encryption succeeds; the existence check then sees the stale
mosaic together with the fresh ciphertext and deletes the raw artifact
anyway, even though the redacted write of this frame failed — the surviving
mosaic still shows the previous frame's pixels. -/
theorem c6_counterexample :
    (let tick1 := processFrame ⟨[], [], []⟩ [[5]] 0 [] false true true
     let tick2 := processFrame tick1 [[6]] 0 [] false false false
     hasFile tick1.record (frameName 0) = true ∧
       hasFile tick1.recordMosaic (frameName 0) = true ∧
       hasFile tick2.record (frameName 0) = false ∧
       getFile tick2.recordMosaic (frameName 0) = some (.raw (jpgEncode [[5]]))) := by
  decide

/-- C6 amended: the raw artifact is removed only when both a redacted and an
encrypted artifact file exist at the deletion check, and on full success the
raw artifact is absent with both derived artifacts present; an exception
raised during redaction or encryption always retains the raw artifact, and a
silent mosaic-write failure retains it when no mosaic already exists under
the frame's name — but since frame_count is incremented only inside the try
block, a name can be reused after a failed tick with that tick's stale mosaic
still on disk, and then a silent mosaic-write failure followed by successful
encryption deletes the raw artifact anyway. -/
theorem c6_amended (cat : Catalog) (frame : Image) (count : Nat) (faces : List Rect)
    (mosaicExn mosaicWriteOk encryptExn : Bool) :
    (hasFile (processFrame cat frame count faces mosaicExn mosaicWriteOk encryptExn).record
        (frameName count) = false →
      hasFile (processFrame cat frame count faces mosaicExn mosaicWriteOk
          encryptExn).recordMosaic (frameName count) = true ∧
      hasFile (processFrame cat frame count faces mosaicExn mosaicWriteOk
          encryptExn).recordEncrypt (frameName count ++ strL ".enc") = true) ∧
    ((mosaicExn || encryptExn) = true →
      hasFile (processFrame cat frame count faces mosaicExn mosaicWriteOk encryptExn).record
        (frameName count) = true) ∧
    (mosaicExn = false → mosaicWriteOk = false → encryptExn = false →
      hasFile cat.recordMosaic (frameName count) = false →
      hasFile (processFrame cat frame count faces mosaicExn mosaicWriteOk encryptExn).record
        (frameName count) = true) ∧
    (mosaicExn = false → mosaicWriteOk = true → encryptExn = false →
      hasFile (processFrame cat frame count faces mosaicExn mosaicWriteOk encryptExn).record
          (frameName count) = false ∧
      hasFile (processFrame cat frame count faces mosaicExn mosaicWriteOk
          encryptExn).recordMosaic (frameName count) = true ∧
      hasFile (processFrame cat frame count faces mosaicExn mosaicWriteOk
          encryptExn).recordEncrypt (frameName count ++ strL ".enc") = true) ∧
    (mosaicExn = false → mosaicWriteOk = false → encryptExn = false →
      hasFile cat.recordMosaic (frameName count) = true →
      hasFile (processFrame cat frame count faces mosaicExn mosaicWriteOk encryptExn).record
        (frameName count) = false) := by
  cases mosaicExn with
  | true => simp [processFrame, hasFile_setFile_self]
  | false =>
      cases encryptExn with
      | true => cases mosaicWriteOk <;> simp [processFrame, hasFile_setFile_self]
      | false =>
          cases mosaicWriteOk with
          | true =>
              simp [processFrame, getFile_setFile_self, hasFile_setFile_self,
                hasFile_removeFile_self]
          | false =>
              by_cases hst : hasFile cat.recordMosaic (frameName count) = true
              · simp [processFrame, getFile_setFile_self, hasFile_setFile_self,
                  hasFile_removeFile_self, hst]
              · simp only [Bool.not_eq_true] at hst
                simp [processFrame, getFile_setFile_self, hasFile_setFile_self, hst]

/-- Witness for C6 amended at a concrete catalog and frame, in the
full-success case. -/
theorem c6_amended_witness :
    hasFile (processFrame ⟨[], [], []⟩ [[5]] 0 [] false true false).record
        (frameName 0) = false ∧
      hasFile (processFrame ⟨[], [], []⟩ [[5]] 0 [] false true false).recordMosaic
        (frameName 0) = true ∧
      hasFile (processFrame ⟨[], [], []⟩ [[5]] 0 [] false true false).recordEncrypt
        (frameName 0 ++ strL ".enc") = true :=
  (c6_amended ⟨[], [], []⟩ [[5]] 0 [] false true false).2.2.2.1 rfl rfl rfl

theorem frameName_append_enc (i : Nat) :
    frameName i ++ strL ".enc" = nameWith i (strL ".jpg.enc") := by
  unfold frameName nameWith
  rw [List.append_assoc]
  congr 1

theorem pushFrame_empty (cat : Catalog) (hm : cat.recordMosaic = [])
    (he : cat.recordEncrypt = []) (s : Session) : pushFrame cat s = (s, []) := by
  obtain ⟨st, ud, dk⟩ := s
  have h1 : latestMosaicFile cat = none := by
    simp [latestMosaicFile, hm, maxByName]
  have h2 : latestEncFile cat = none := by
    simp [latestEncFile, he, maxByName]
  cases ud with
  | false => simp [pushFrame, h1]
  | true =>
      cases dk with
      | none => simp [pushFrame, h1]
      | some k => simp [pushFrame, h2]

/-- C8 counterexample: with mosaic artifacts for frames 9999 and 10000 in the
catalog, sorted()[-1] picks frame_9999 (lexicographic order on the file
names), not frame_10000, the frame of greatest capture order, because the
four-digit zero padding is exceeded. -/
theorem c8_counterexample :
    (let cat : Catalog := ⟨[], [(frameName 9999, .raw []), (frameName 10000, .raw [])], []⟩
     (latestMosaicFile cat).map Prod.fst = some (frameName 9999) ∧
       frameName 9999 ≠ frameName 10000) := by
  decide

/-- C8 amended: latest returns the artifact whose file name is
lexicographically greatest; as long as every frame identifier is below 10000
(within the four-digit zero padding) this is exactly the artifact of the
greatest identifier in capture order, for both the redacted and the encrypted
collection; for an empty catalog latest is none and a push sends nothing. The
last conjunct records that the encrypted names the sampler writes are the
redacted names with the .enc suffix appended. -/
theorem c8_amended (cat : Catalog) (mosaicIds encIds : List Nat) (f g : Nat → BStr)
    (hm : cat.recordMosaic = mosaicIds.map (fun i => (frameName i, f i)))
    (he : cat.recordEncrypt = encIds.map (fun i => (nameWith i (strL ".jpg.enc"), g i)))
    (hmlt : ∀ i ∈ mosaicIds, i < 10000) (helt : ∀ i ∈ encIds, i < 10000) :
    (∀ i0 rest, mosaicIds = i0 :: rest →
      (latestMosaicFile cat).map Prod.fst = some (frameName (mosaicIds.foldl max 0))) ∧
    (∀ i0 rest, encIds = i0 :: rest →
      (latestEncFile cat).map Prod.fst =
        some (nameWith (encIds.foldl max 0) (strL ".jpg.enc"))) ∧
    (mosaicIds = [] → latestMosaicFile cat = none) ∧
    (encIds = [] → latestEncFile cat = none) ∧
    (mosaicIds = [] → encIds = [] → ∀ s, pushFrame cat s = (s, [])) ∧
    (∀ i, frameName i ++ strL ".enc" = nameWith i (strL ".jpg.enc")) := by
  have hfm : cat.recordMosaic.filter
      (fun e => startsWithL (strL "frame_") e.1 && endsWithL (strL ".jpg") e.1) =
      mosaicIds.map (fun i => (frameName i, f i)) := by
    rw [hm]
    apply List.filter_eq_self.mpr
    intro a ha
    obtain ⟨i, hi, rfl⟩ := List.mem_map.mp ha
    simp [frameName, startsWith_nameWith, endsWith_nameWith]
  have hfe : cat.recordEncrypt.filter
      (fun e => startsWithL (strL "frame_") e.1 && endsWithL (strL ".jpg.enc") e.1) =
      encIds.map (fun i => (nameWith i (strL ".jpg.enc"), g i)) := by
    rw [he]
    apply List.filter_eq_self.mpr
    intro a ha
    obtain ⟨i, hi, rfl⟩ := List.mem_map.mp ha
    simp [startsWith_nameWith, endsWith_nameWith]
  refine ⟨?_, ?_, ?_, ?_, ?_, frameName_append_enc⟩
  · intro i0 rest hids
    subst hids
    unfold latestMosaicFile
    rw [hfm]
    exact maxByName_map_nameWith (strL ".jpg") (fun i => (frameName i, f i))
      (fun _ => rfl) i0 rest hmlt
  · intro i0 rest hids
    subst hids
    unfold latestEncFile
    rw [hfe]
    exact maxByName_map_nameWith (strL ".jpg.enc")
      (fun i => (nameWith i (strL ".jpg.enc"), g i)) (fun _ => rfl) i0 rest helt
  · intro hids
    unfold latestMosaicFile
    rw [hfm, hids]
    rfl
  · intro hids
    unfold latestEncFile
    rw [hfe, hids]
    rfl
  · intro hids1 hids2 s
    refine pushFrame_empty cat ?_ ?_ s
    · rw [hm, hids1]
      rfl
    · rw [he, hids2]
      rfl

/-- Witness for C8 amended at a concrete catalog with frames 0 and 2. -/
theorem c8_witness :
    (∀ i ∈ ([0, 2] : List Nat), i < 10000) ∧
    (latestMosaicFile ⟨[], [(frameName 0, .raw []), (frameName 2, .raw [])],
        [(nameWith 1 (strL ".jpg.enc"), .raw [])]⟩).map Prod.fst =
      some (frameName (([0, 2] : List Nat).foldl max 0)) :=
  ⟨by decide,
    (c8_amended
        ⟨[], [(frameName 0, .raw []), (frameName 2, .raw [])],
          [(nameWith 1 (strL ".jpg.enc"), .raw [])]⟩
        [0, 2] [1] (fun _ => .raw []) (fun _ => .raw []) rfl rfl
        (by decide) (by decide)).1 0 [2] rfl⟩

end CCTVEncrypt
